import Mathlib

/-
  Verification of the task-dependency / completion-gating core of the
  mcp-agent-planning project store (src/src/database.js), shallowly embedded
  in Lean 4.  SQL tables are embedded as Lean lists of records; the SQLite
  statements of the source are translated to the corresponding list
  operations, and the declared foreign-key cascade actions of the schema
  (migration005/migration006, with PRAGMA foreign_keys = ON) are part of the
  embedded delete operations.
-/

namespace PlanningDb

/-- Row of the `tasks` table (migration002).  The JSON `tags` column and the
effort columns are never read or written by the task/dependency/blocker logic
modelled here and are omitted. -/
structure Task where
  id : String
  project_id : String
  title : String
  description : String
  status : String
  priority : String
  assignee : String
  notes : String
  parent_task_id : Option String
  created_at : String
  updated_at : String
  completed_at : Option String
deriving Repr, DecidableEq

/-- Row of the `task_dependencies` table (migration005). -/
structure TaskDependency where
  id : String
  project_id : String
  parent_task_id : String
  child_task_id : String
  dependency_type : String
  created_at : String
deriving Repr, DecidableEq

/-- Row of the `blockers` table (migration006). -/
structure Blocker where
  id : String
  project_id : String
  title : String
  description : Option String
  blocker_type : String
  severity : String
  status : String
  owner : Option String
  external_ref : Option String
  resolution_notes : Option String
  created_at : String
  updated_at : String
  resolved_at : Option String
deriving Repr, DecidableEq

/-- Row of the `blocker_impacts` table (migration006); `task_id` is nullable
in the schema. -/
structure BlockerImpact where
  id : String
  blocker_id : String
  task_id : Option String
  impact_type : String
  impact_description : Option String
  estimated_delay : Option Int
  created_at : String
deriving Repr, DecidableEq

/-- The persisted store restricted to the tables the dependency /
completion-gating core reads and writes. -/
structure DBState where
  tasks : List Task
  task_dependencies : List TaskDependency
  blockers : List Blocker
  blocker_impacts : List BlockerImpact
deriving Repr, DecidableEq

/-- `SELECT child_task_id FROM task_dependencies WHERE parent_task_id = ?`
(the query issued for each popped node inside
`wouldCreateCircularDependency`). -/
def succs (edges : List TaskDependency) (a : String) : List String :=
  (edges.filter (fun e => e.parent_task_id == a)).map (fun e => e.child_task_id)

set_option linter.unusedVariables false in
/-- The loop of `wouldCreateCircularDependency` (database.js 674-703).
The JS `visited` set is represented by its complement `remaining` inside the
pool of nodes that can ever be pushed: a popped id outside `remaining` is a
visited id and is skipped (`continue`); a popped id inside `remaining` is
marked visited (erased), compared against `parentTaskId`, and its dependents
are pushed. -/
def dfs (edges : List TaskDependency) (parentTaskId : String) :
    (remaining : List String) → (stack : List String) → Bool
  | _, [] => false
  | remaining, currentId :: rest =>
    if h : currentId ∈ remaining then
      if currentId = parentTaskId then true
      else dfs edges parentTaskId (remaining.erase currentId)
        (succs edges currentId ++ rest)
    else dfs edges parentTaskId remaining rest
termination_by remaining stack => (remaining.length, stack.length)
decreasing_by
  · apply Prod.Lex.left
    have hlen := List.length_erase_of_mem h
    have hpos : 0 < remaining.length := List.length_pos.mpr (List.ne_nil_of_mem h)
    omega
  · apply Prod.Lex.right
    simp

/-- All node ids `wouldCreateCircularDependency` can ever push on its stack:
the starting `childTaskId` and every edge's child endpoint (each popped node
pushes `succs`, which are child endpoints).  Deduplicated, mirroring the JS
`Set` semantics of `visited`. -/
def nodePool (edges : List TaskDependency) (childTaskId : String) : List String :=
  (childTaskId :: edges.map (fun e => e.child_task_id)).dedup

/-- database.js 674-703: depth-first search from `childTaskId` following
edges parent→child forward; returns true when `parentTaskId` is encountered. -/
def wouldCreateCircularDependency (edges : List TaskDependency)
    (parentTaskId childTaskId : String) : Bool :=
  dfs edges parentTaskId (nodePool edges childTaskId) [childTaskId]

/-- One forward step along an existing dependency edge: `stepRel edges a b`
holds when some edge has parent endpoint `a` and child endpoint `b`. -/
def stepRel (edges : List TaskDependency) (a b : String) : Prop :=
  b ∈ succs edges a

/-- Reachability by following existing edges forward (reflexive-transitive). -/
def Reaches (edges : List TaskDependency) (a b : String) : Prop :=
  Relation.ReflTransGen (stepRel edges) a b

/-- No directed cycle: no node has a non-empty directed path back to itself. -/
def NoCycle (edges : List TaskDependency) : Prop :=
  ∀ v, ¬ Relation.TransGen (stepRel edges) v v

theorem dfs_sound (edges : List TaskDependency) (p : String) :
    ∀ remaining stack, dfs edges p remaining stack = true →
      ∃ x ∈ stack, Relation.ReflTransGen (stepRel edges) x p := by
  intro remaining stack
  induction remaining, stack using dfs.induct edges p with
  | case1 remaining =>
    simp [dfs]
  | case2 remaining rest hmem =>
    intro _
    exact ⟨p, List.mem_cons_self _ _, Relation.ReflTransGen.refl⟩
  | case3 remaining c rest hmem hne ih =>
    intro ht
    simp only [dfs, dif_pos hmem, if_neg hne] at ht
    obtain ⟨x, hx, hreach⟩ := ih ht
    rcases List.mem_append.mp hx with hxs | hxr
    · exact ⟨c, List.mem_cons_self _ _, Relation.ReflTransGen.head hxs hreach⟩
    · exact ⟨x, List.mem_cons_of_mem _ hxr, hreach⟩
  | case4 remaining c rest hmem ih =>
    intro ht
    simp only [dfs, dif_neg hmem] at ht
    obtain ⟨x, hx, hreach⟩ := ih ht
    exact ⟨x, List.mem_cons_of_mem _ hx, hreach⟩

/-- Unfolding of one forward step into the existence of a concrete edge. -/
theorem stepRel_iff (edges : List TaskDependency) (a b : String) :
    stepRel edges a b ↔
      ∃ e ∈ edges, e.parent_task_id = a ∧ e.child_task_id = b := by
  simp only [stepRel, succs, List.mem_map, List.mem_filter, beq_iff_eq]
  constructor
  · rintro ⟨e, ⟨he, hpar⟩, hch⟩
    exact ⟨e, he, hpar, hch⟩
  · rintro ⟨e, he, hpar, hch⟩
    exact ⟨e, ⟨he, hpar⟩, hch⟩

/-- A set of nodes closed under forward steps traps reachability. -/
theorem reach_closed (edges : List TaskDependency) (V : String → Prop)
    (hcl : ∀ v w, V v → stepRel edges v w → V w) :
    ∀ x y, Relation.ReflTransGen (stepRel edges) x y → V x → V y := by
  intro x y h
  induction h with
  | refl => exact fun hx => hx
  | tail _ hstep ih => exact fun hx => hcl _ _ (ih hx) hstep

/-- Every node a forward step can produce is in the node pool. -/
theorem step_mem_nodePool (edges : List TaskDependency) (c : String)
    {v w : String} (h : stepRel edges v w) : w ∈ nodePool edges c := by
  rcases (stepRel_iff edges v w).mp h with ⟨e, he, _, hch⟩
  exact List.mem_dedup.mpr (List.mem_cons_of_mem _
    (List.mem_map.mpr ⟨e, he, hch⟩))

/-- Core completeness invariant of the search loop: if the loop returns
false, no node on the stack — nor any already-visited node — reaches
`p`.  `pool` over-approximates everything that can ever be pushed;
visited nodes are the pool nodes no longer in `remaining`. -/
theorem dfs_false_sound (edges : List TaskDependency) (p : String)
    (pool : List String)
    (hsuccpool : ∀ v w, stepRel edges v w → w ∈ pool) :
    ∀ remaining stack,
      (∀ x ∈ stack, x ∈ pool) →
      (∀ x ∈ remaining, x ∈ pool) →
      remaining.Nodup →
      (p ∈ remaining ∨ p ∉ pool) →
      (∀ v, v ∈ pool → v ∉ remaining → ∀ w, stepRel edges v w →
        (w ∈ stack ∨ w ∉ remaining)) →
      dfs edges p remaining stack = false →
      ∀ x, (x ∈ stack ∨ (x ∈ pool ∧ x ∉ remaining)) →
        ¬ Relation.ReflTransGen (stepRel edges) x p := by
  intro remaining stack
  induction remaining, stack using dfs.induct edges p with
  | case1 remaining =>
    intro _ _ _ hp hclosed _ x hx hreach
    have hv : x ∈ pool ∧ x ∉ remaining := by
      rcases hx with hx | hx
      · exact absurd hx (List.not_mem_nil x)
      · exact hx
    have hclV : ∀ v w, (v ∈ pool ∧ v ∉ remaining) → stepRel edges v w →
        (w ∈ pool ∧ w ∉ remaining) := by
      intro v w hv hstep
      refine ⟨hsuccpool v w hstep, ?_⟩
      rcases hclosed v hv.1 hv.2 w hstep with hw | hw
      · exact absurd hw (List.not_mem_nil w)
      · exact hw
    have hpV := reach_closed edges (fun z => z ∈ pool ∧ z ∉ remaining)
      hclV x p hreach hv
    rcases hp with hp | hp
    · exact hpV.2 hp
    · exact hp hpV.1
  | case2 remaining rest hmem =>
    intro _ _ _ _ _ hfalse
    simp [dfs, hmem] at hfalse
  | case3 remaining c rest hmem hne ih =>
    intro hsub hrem hnd hp hclosed hfalse
    simp only [dfs, dif_pos hmem, if_neg hne] at hfalse
    have hcpool : c ∈ pool := hsub c (List.mem_cons_self _ _)
    have hcnotin : c ∉ remaining.erase c := by
      intro hcon
      exact absurd ((hnd.mem_erase_iff).mp hcon).1 (fun hh => hh rfl)
    have herase_sub : ∀ x ∈ remaining.erase c, x ∈ remaining :=
      fun x hx => List.mem_of_mem_erase hx
    have ihall := ih
      (by
        intro x hx
        rcases List.mem_append.mp hx with hx | hx
        · exact hsuccpool c x hx
        · exact hsub x (List.mem_cons_of_mem _ hx))
      (fun x hx => hrem x (herase_sub x hx))
      (hnd.erase c)
      (by
        rcases hp with hp | hp
        · exact Or.inl (List.mem_erase_of_ne (fun he => hne he.symm) |>.mpr hp)
        · exact Or.inr hp)
      (by
        intro v hvpool hvout w hstep
        by_cases hvc : v = c
        · subst hvc
          exact Or.inl (List.mem_append.mpr (Or.inl hstep))
        · have hvoutrem : v ∉ remaining := by
            intro hvin
            exact hvout ((List.mem_erase_of_ne hvc).mpr hvin)
          rcases hclosed v hvpool hvoutrem w hstep with hw | hw
          · rcases List.mem_cons.mp hw with hw | hw
            · subst hw
              exact Or.inr hcnotin
            · exact Or.inl (List.mem_append.mpr (Or.inr hw))
          · exact Or.inr (fun hcon => hw (herase_sub w hcon)))
      hfalse
    intro x hx hreach
    rcases hx with hx | hx
    · rcases List.mem_cons.mp hx with hx | hx
      · subst hx
        exact ihall x (Or.inr ⟨hcpool, hcnotin⟩) hreach
      · exact ihall x (Or.inl (List.mem_append.mpr (Or.inr hx))) hreach
    · exact ihall x
        (Or.inr ⟨hx.1, fun hcon => hx.2 (herase_sub x hcon)⟩) hreach
  | case4 remaining c rest hmem ih =>
    intro hsub hrem hnd hp hclosed hfalse
    simp only [dfs, dif_neg hmem] at hfalse
    have hcpool : c ∈ pool := hsub c (List.mem_cons_self _ _)
    have ihall := ih
      (fun x hx => hsub x (List.mem_cons_of_mem _ hx))
      hrem hnd hp
      (by
        intro v hvpool hvout w hstep
        rcases hclosed v hvpool hvout w hstep with hw | hw
        · rcases List.mem_cons.mp hw with hw | hw
          · subst hw
            exact Or.inr hmem
          · exact Or.inl hw
        · exact Or.inr hw)
      hfalse
    intro x hx hreach
    rcases hx with hx | hx
    · rcases List.mem_cons.mp hx with hx | hx
      · subst hx
        exact ihall x (Or.inr ⟨hcpool, hmem⟩) hreach
      · exact ihall x (Or.inl hx) hreach
    · exact ihall x (Or.inr hx) hreach

/-- Correctness of the reachability search (database.js 674-703): it answers
true exactly when `parentTaskId` is reachable from `childTaskId` by following
existing edges forward. -/
theorem wouldCreateCircularDependency_iff (edges : List TaskDependency)
    (parentTaskId childTaskId : String) :
    wouldCreateCircularDependency edges parentTaskId childTaskId = true ↔
      Reaches edges childTaskId parentTaskId := by
  constructor
  · intro h
    obtain ⟨x, hx, hreach⟩ := dfs_sound edges parentTaskId _ _ h
    rcases List.mem_cons.mp hx with hx | hx
    · exact hx ▸ hreach
    · exact absurd hx (List.not_mem_nil x)
  · intro hreach
    by_contra hfalse
    have hfalse' : dfs edges parentTaskId (nodePool edges childTaskId)
        [childTaskId] = false := by
      exact Bool.not_eq_true _ ▸ (Bool.eq_false_iff.mpr hfalse)
    have hcmem : childTaskId ∈ nodePool edges childTaskId :=
      List.mem_dedup.mpr (List.mem_cons_self _ _)
    refine dfs_false_sound edges parentTaskId (nodePool edges childTaskId)
      (fun v w h => step_mem_nodePool edges childTaskId h)
      (nodePool edges childTaskId) [childTaskId]
      ?_ (fun x hx => hx) (List.nodup_dedup _) ?_ ?_ hfalse'
      childTaskId (Or.inl (List.mem_cons_self _ _)) hreach
    · intro x hx
      rcases List.mem_cons.mp hx with hx | hx
      · exact hx ▸ hcmem
      · exact absurd hx (List.not_mem_nil x)
    · by_cases hp : parentTaskId ∈ nodePool edges childTaskId
      · exact Or.inl hp
      · exact Or.inr hp
    · intro v hvpool hvout
      exact absurd hvpool hvout

/-- A step over a filtered edge list is a step over the full list. -/
theorem stepRel_filter_le (edges : List TaskDependency) (P : TaskDependency → Bool)
    (a b : String) (h : stepRel (edges.filter P) a b) : stepRel edges a b := by
  rcases (stepRel_iff _ a b).mp h with ⟨e, he, hpar, hch⟩
  exact (stepRel_iff edges a b).mpr ⟨e, (List.mem_filter.mp he).1, hpar, hch⟩

/-- A step over `edges` is a step over `e :: edges`. -/
theorem stepRel_cons_le (e : TaskDependency) (edges : List TaskDependency)
    (a b : String) (h : stepRel edges a b) : stepRel (e :: edges) a b := by
  rcases (stepRel_iff _ a b).mp h with ⟨e', he', hpar, hch⟩
  exact (stepRel_iff _ a b).mpr ⟨e', List.mem_cons_of_mem _ he', hpar, hch⟩

/-- Decomposing reachability in an extended edge list: either the path never
uses the new edge `e`, or it reaches `e`'s parent endpoint first in the old
edges and continues from `e`'s child endpoint. -/
theorem reach_cons_decompose (e : TaskDependency) (edges : List TaskDependency)
    (a b : String)
    (h : Relation.ReflTransGen (stepRel (e :: edges)) a b) :
    Relation.ReflTransGen (stepRel edges) a b ∨
      (Relation.ReflTransGen (stepRel edges) a e.parent_task_id ∧
        Relation.ReflTransGen (stepRel (e :: edges)) e.child_task_id b) := by
  induction h using Relation.ReflTransGen.head_induction_on with
  | refl => exact Or.inl Relation.ReflTransGen.refl
  | head hstep htail ih =>
    rename_i a' c'
    rcases (stepRel_iff _ a' c').mp hstep with ⟨e', he', hpar, hch⟩
    rcases List.mem_cons.mp he' with he' | he'
    · subst he'
      exact Or.inr ⟨hpar ▸ Relation.ReflTransGen.refl, hch ▸ htail⟩
    · have hstepOld : stepRel edges a' c' :=
        (stepRel_iff edges a' c').mpr ⟨e', he', hpar, hch⟩
      rcases ih with hold | ⟨hpre, hpost⟩
      · exact Or.inl (Relation.ReflTransGen.head hstepOld hold)
      · exact Or.inr ⟨Relation.ReflTransGen.head hstepOld hpre, hpost⟩

/-- If the old edges cannot reach `e`'s parent endpoint from its child
endpoint, reachability from `e`'s child endpoint is unchanged by adding `e`. -/
theorem reach_cons_from_child (e : TaskDependency) (edges : List TaskDependency)
    (hnr : ¬ Reaches edges e.child_task_id e.parent_task_id)
    (x : String)
    (h : Relation.ReflTransGen (stepRel (e :: edges)) e.child_task_id x) :
    Relation.ReflTransGen (stepRel edges) e.child_task_id x := by
  induction h with
  | refl => exact Relation.ReflTransGen.refl
  | tail _ hstep ih =>
    rename_i m y _
    rcases (stepRel_iff _ m y).mp hstep with ⟨e', he', hpar, hch⟩
    rcases List.mem_cons.mp he' with he' | he'
    · subst he'
      exact absurd (hpar ▸ ih) hnr
    · exact Relation.ReflTransGen.tail ih
        ((stepRel_iff edges m y).mpr ⟨e', he', hpar, hch⟩)

/-- Adding an edge whose child endpoint cannot already reach its parent
endpoint preserves acyclicity. -/
theorem noCycle_cons (e : TaskDependency) (edges : List TaskDependency)
    (hacyc : NoCycle edges)
    (hnr : ¬ Reaches edges e.child_task_id e.parent_task_id) :
    NoCycle (e :: edges) := by
  intro v hcyc
  rcases (Relation.TransGen.head'_iff.mp hcyc) with ⟨w, hstep, hreach⟩
  rcases (stepRel_iff _ v w).mp hstep with ⟨e', he', hpar, hch⟩
  rcases reach_cons_decompose e edges w v hreach with hold | ⟨hpre, hpost⟩
  · rcases List.mem_cons.mp he' with he' | he'
    · subst he'
      exact hnr (hch ▸ hpar ▸ hold)
    · exact hacyc v (Relation.TransGen.head'
        ((stepRel_iff edges v w).mpr ⟨e', he', hpar, hch⟩) hold)
  · have hfromChild : Relation.ReflTransGen (stepRel edges) e.child_task_id v :=
      reach_cons_from_child e edges hnr v hpost
    rcases List.mem_cons.mp he' with he' | he'
    · subst he'
      exact hnr (hch ▸ hpre)
    · have hstepOld : stepRel edges v w :=
        (stepRel_iff edges v w).mpr ⟨e', he', hpar, hch⟩
      exact hnr (Relation.ReflTransGen.trans
        (Relation.ReflTransGen.tail hfromChild hstepOld) hpre)

/-- Acyclicity of an edge list restricts to any filtered sub-list. -/
theorem noCycle_filter (edges : List TaskDependency) (P : TaskDependency → Bool)
    (h : NoCycle edges) : NoCycle (edges.filter P) := by
  intro v hcyc
  exact h v (Relation.TransGen.mono (stepRel_filter_le edges P) hcyc)

/-- The error message thrown at database.js 610. -/
def cycleErrorMsg : String :=
  "Cannot create dependency: would result in circular dependency"

/-- Result object of `addTaskDependency` (database.js 622-628); `changes` is
the row count of the INSERT. -/
structure AddDependencyResult where
  dependency_id : String
  parent_task_id : String
  child_task_id : String
  dependency_type : String
  changes : Nat
deriving Repr, DecidableEq

/-- database.js 595-629.  The source's `generateId()` and
`new Date().toISOString()` are nondeterministic inputs and are passed in as
the `dependencyId` and `now` arguments; the source defaults
`dependencyType` to "blocks" at the call boundary.  A thrown `Error` is an
`Except.error` carrying the thrown message; an error leaves the store
untouched (the source throws before its INSERT). -/
def addTaskDependency (s : DBState)
    (projectId parentTaskId childTaskId dependencyType : String)
    (dependencyId now : String) :
    Except String (DBState × AddDependencyResult) :=
  if (s.tasks.find? (fun t => t.id == parentTaskId)).isNone then
    .error ("Parent task not found: " ++ parentTaskId)
  else if (s.tasks.find? (fun t => t.id == childTaskId)).isNone then
    .error ("Child task not found: " ++ childTaskId)
  else if wouldCreateCircularDependency s.task_dependencies parentTaskId childTaskId then
    .error cycleErrorMsg
  else
    .ok ({ s with task_dependencies :=
            ⟨dependencyId, projectId, parentTaskId, childTaskId,
              dependencyType, now⟩ :: s.task_dependencies },
         ⟨dependencyId, parentTaskId, childTaskId, dependencyType, 1⟩)

/-- Result object of `removeTaskDependency` (database.js 642-648). -/
structure RemoveDependencyResult where
  success : Bool
  message : String
  changes : Nat
deriving Repr, DecidableEq

/-- The WHERE clause of the DELETE at database.js 632-638: parent and child
match, and the dependency type matches when one was given. -/
def depMatches (parentTaskId childTaskId : String)
    (dependencyType : Option String) (td : TaskDependency) : Bool :=
  td.parent_task_id == parentTaskId && td.child_task_id == childTaskId &&
    (match dependencyType with
     | some dt => td.dependency_type == dt
     | none => true)

/-- database.js 631-649: deletes every matching edge, never throws, and
reports the removed count. -/
def removeTaskDependency (s : DBState) (parentTaskId childTaskId : String)
    (dependencyType : Option String) :
    DBState × RemoveDependencyResult :=
  let changes :=
    (s.task_dependencies.filter (depMatches parentTaskId childTaskId dependencyType)).length
  let kept := s.task_dependencies.filter
    (fun td => !(depMatches parentTaskId childTaskId dependencyType td))
  ({ s with task_dependencies := kept },
   { success := decide (0 < changes),
     message :=
       if 0 < changes then
         "Removed dependency: " ++ parentTaskId ++ " -> " ++ childTaskId
       else
         "No dependency found: " ++ parentTaskId ++ " -> " ++ childTaskId,
     changes := changes })

/-- A `depends_on` row of `getTaskDependencies`: the edge columns joined with
the parent task's title and status. -/
structure DependsOnRow where
  td : TaskDependency
  parent_title : String
  parent_status : String
deriving Repr, DecidableEq

/-- A `blocks` row of `getTaskDependencies`: the edge columns joined with the
child task's title and status. -/
structure BlocksRow where
  td : TaskDependency
  child_title : String
  child_status : String
deriving Repr, DecidableEq

/-- Result shape of `getTaskDependencies` (database.js 668-671). -/
structure DependencyQueryResult where
  depends_on : List DependsOnRow
  blocks : List BlocksRow
deriving Repr, DecidableEq

/-- database.js 651-672.  The SQL inner joins are embedded with `find?` on
the task list — task `id` is the primary key, so at most one task matches. -/
def getTaskDependencies (s : DBState) (taskId : String) : DependencyQueryResult :=
  { depends_on :=
      (s.task_dependencies.filter (fun td => td.child_task_id == taskId)).filterMap
        (fun td => (s.tasks.find? (fun t => t.id == td.parent_task_id)).map
          (fun pt => ⟨td, pt.title, pt.status⟩)),
    blocks :=
      (s.task_dependencies.filter (fun td => td.parent_task_id == taskId)).filterMap
        (fun td => (s.tasks.find? (fun t => t.id == td.child_task_id)).map
          (fun ct => ⟨td, ct.title, ct.status⟩)) }

/-- One row of the dependency query inside `canCompleteTask`
(database.js 717-722): the parent task's id, title and status joined to the
edge's dependency type. -/
structure GatingDep where
  id : String
  title : String
  status : String
  dependency_type : String
deriving Repr, DecidableEq

/-- The rows returned by the SELECT at database.js 717-722: incoming edges of
`taskId` of type blocks or prerequisite, joined with their parent tasks. -/
def gatingDeps (s : DBState) (taskId : String) : List GatingDep :=
  (s.task_dependencies.filter (fun td => td.child_task_id == taskId &&
      (td.dependency_type == "blocks" || td.dependency_type == "prerequisite"))).filterMap
    (fun td => (s.tasks.find? (fun t => t.id == td.parent_task_id)).map
      (fun pt => ⟨pt.id, pt.title, pt.status, td.dependency_type⟩))

/-- Result shape of `canCompleteTask` (database.js 726-729). -/
structure DependencyCheck where
  can_complete : Bool
  unsatisfied_dependencies : List GatingDep
deriving Repr, DecidableEq

/-- database.js 715-730. -/
def canCompleteTask (s : DBState) (taskId : String) : DependencyCheck :=
  let unsatisfiedDeps :=
    (gatingDeps s taskId).filter (fun dep => !(dep.status == "completed"))
  { can_complete := unsatisfiedDeps.length == 0,
    unsatisfied_dependencies := unsatisfiedDeps }

/-- JavaScript truthiness of the optional `notes` argument: absent and the
empty string are falsy. -/
def strTruthy : Option String → Bool
  | none => false
  | some s => !(s == "")

/-- The message built at database.js 544-547. -/
def blockedByMsg (deps : List GatingDep) : String :=
  "Cannot complete task: blocked by unsatisfied dependencies: " ++
    String.intercalate ", "
      (deps.map (fun dep => "\"" ++ dep.title ++ "\" (" ++ dep.status ++ ")"))

/-- Result object of `completeTask` (database.js 573-578). -/
structure CompleteTaskResult where
  task_id : String
  completed_at : String
  dependency_check : DependencyCheck
deriving Repr, DecidableEq

/-- database.js 539-579.  The UPDATE sets status and completed_at (and notes
when truthy) on the matching row; `changes = 0` (no such task) throws after
the gate.  Throws happen before any write, so an error leaves the store
untouched. -/
def completeTask (s : DBState) (taskId : String) (notes : Option String)
    (completed_at now : String) :
    Except String (DBState × CompleteTaskResult) :=
  let dependencyCheck := canCompleteTask s taskId
  if !dependencyCheck.can_complete then
    .error (blockedByMsg dependencyCheck.unsatisfied_dependencies)
  else if (s.tasks.filter (fun t => t.id == taskId)).length == 0 then
    .error ("Task not found: " ++ taskId)
  else
    .ok ({ s with tasks := s.tasks.map (fun t =>
            if t.id == taskId then
              { t with status := "completed",
                       completed_at := some completed_at,
                       updated_at := now,
                       notes := if strTruthy notes then notes.getD t.notes
                                else t.notes }
            else t) },
         ⟨taskId, completed_at, dependencyCheck⟩)

/-- database.js 581-592 plus the schema's declared cascade actions
(migration005: task_dependencies ON DELETE CASCADE on both endpoints;
migration006: blocker_impacts ON DELETE CASCADE on task_id; migration002:
tasks.parent_task_id ON DELETE SET NULL), which fire because the source sets
PRAGMA foreign_keys = ON (database.js 61). -/
def deleteCascade (s : DBState) (taskId : String) : DBState :=
  { tasks := (s.tasks.filter (fun t => !(t.id == taskId))).map
      (fun t => if t.parent_task_id == some taskId then
          { t with parent_task_id := none } else t),
    task_dependencies := s.task_dependencies.filter
      (fun td => !(td.parent_task_id == taskId) && !(td.child_task_id == taskId)),
    blockers := s.blockers,
    blocker_impacts := s.blocker_impacts.filter
      (fun bi => !(bi.task_id == some taskId)) }

/-- database.js 581-592: the DELETE on the matching task row; a zero row
count throws `Task not found`. -/
def deleteTask (s : DBState) (taskId : String) : Except String DBState :=
  if (s.tasks.filter (fun t => t.id == taskId)).length == 0 then
    .error ("Task not found: " ++ taskId)
  else
    .ok (deleteCascade s taskId)

/-- The update argument of `updateTask`: the six whitelisted columns
(database.js 509), each either provided or absent (`undefined`). -/
structure TaskUpdates where
  title : Option String := none
  description : Option String := none
  status : Option String := none
  priority : Option String := none
  assignee : Option String := none
  notes : Option String := none
deriving Repr, DecidableEq

/-- The field names pushed onto `updateFields` at database.js 509-514, in
whitelist order. -/
def updatedFieldNames (u : TaskUpdates) : List String :=
  (if u.title.isSome then ["title"] else []) ++
  (if u.description.isSome then ["description"] else []) ++
  (if u.status.isSome then ["status"] else []) ++
  (if u.priority.isSome then ["priority"] else []) ++
  (if u.assignee.isSome then ["assignee"] else []) ++
  (if u.notes.isSome then ["notes"] else [])

/-- The SET clause of the UPDATE at database.js 524: each provided column is
overwritten, every other column keeps its value, and `updated_at` is set to
the statement timestamp. -/
def applyTaskUpdates (u : TaskUpdates) (now : String) (t : Task) : Task :=
  { t with
    title := u.title.getD t.title,
    description := u.description.getD t.description,
    status := u.status.getD t.status,
    priority := u.priority.getD t.priority,
    assignee := u.assignee.getD t.assignee,
    notes := u.notes.getD t.notes,
    updated_at := now }

/-- Result object of `updateTask` (database.js 532-536). -/
structure UpdateTaskResult where
  task_id : String
  fields_updated : List String
deriving Repr, DecidableEq

/-- database.js 504-537.  An empty provided-field set throws before any
write; `changes = 0` (no task row with this id) throws `Task not found`. -/
def updateTask (s : DBState) (taskId : String) (u : TaskUpdates)
    (now : String) : Except String (DBState × UpdateTaskResult) :=
  if (updatedFieldNames u).length == 0 then
    .error "No valid update fields provided"
  else if (s.tasks.filter (fun t => t.id == taskId)).length == 0 then
    .error ("Task not found: " ++ taskId)
  else
    .ok ({ s with tasks := s.tasks.map (fun t =>
            if t.id == taskId then applyTaskUpdates u now t else t) },
         ⟨taskId, updatedFieldNames u⟩)

/-- The open or in-progress blockers having an impact row on `taskId`
(one list entry per qualifying join row of database.js 890-902). -/
def openBlockersFor (s : DBState) (taskId : String) : List Blocker :=
  s.blocker_impacts.flatMap (fun bi =>
    if bi.task_id == some taskId then
      s.blockers.filter (fun b => b.id == bi.blocker_id &&
        (b.status == "open" || b.status == "in-progress"))
    else [])

/-- One aggregated row of `getTasksBlockedByBlockers`: the task together with
the GROUP_CONCAT of blocking titles and the COUNT of qualifying impact rows. -/
structure BlockedTaskRow where
  task : Task
  blocking_issues : String
  blocker_count : Nat
deriving Repr, DecidableEq

/-- database.js 890-902: tasks of the project having at least one impact row
from an open or in-progress blocker, aggregated per task and ordered by
blocker count then priority, both descending (SQL leaves ties unordered; the
embedding uses a stable sort). -/
def getTasksBlockedByBlockers (s : DBState) (projectId : String) :
    List BlockedTaskRow :=
  ((s.tasks.filter (fun t => t.project_id == projectId)).filterMap (fun t =>
      let bs := openBlockersFor s t.id
      if bs.isEmpty then none
      else some ⟨t, String.intercalate "," (bs.map (fun b => b.title)),
        bs.length⟩)).mergeSort
    (fun a b => decide (b.blocker_count < a.blocker_count) ||
      (a.blocker_count == b.blocker_count &&
        decide (b.task.priority ≤ a.task.priority)))

/-- Modelled from the spec: §7's error taxonomy (`NotFound`,
`InvalidArgument`, `CycleDetected`, `Blocked`, `AlreadyExists`).  The source
reports failures only as thrown `Error` messages; the spec's kinds are not
present in src/ and are reconstructed here by classifying those messages. -/
inductive SpecErrorKind where
  | NotFound
  | InvalidArgument
  | CycleDetected
  | Blocked
  | AlreadyExists
  | OtherError
deriving Repr, DecidableEq

/-- `pre` is a leading piece of `msg`. -/
def msgStarts (pre msg : String) : Bool :=
  decide (pre.data <+: msg.data)

/-- Modelled from the spec: classification of the source's thrown messages
into §7's error kinds (`NotFound` for the absent-entity messages,
`CycleDetected` for the circular-dependency rejection, `Blocked` for the
completion gate, `InvalidArgument` for missing required input). -/
def errorKindOf (msg : String) : SpecErrorKind :=
  if msgStarts "Parent task not found: " msg ||
      msgStarts "Child task not found: " msg ||
      msgStarts "Task not found: " msg ||
      msgStarts "Blocker not found: " msg then
    .NotFound
  else if msg == cycleErrorMsg then
    .CycleDetected
  else if msgStarts "Cannot complete task: blocked by unsatisfied dependencies: " msg then
    .Blocked
  else if msg == "No valid update fields provided" ||
      msg == "Task title is required" then
    .InvalidArgument
  else
    .OtherError

/-- The arguments of one `add_dependency` call in a sequence. -/
structure AddOp where
  project_id : String
  parent_task_id : String
  child_task_id : String
  dependency_type : String
  dependency_id : String
  created_at : String
deriving Repr, DecidableEq

/-- Running a sequence of `addTaskDependency` calls, stopping at the first
failure. -/
def applyAdds (s : DBState) : List AddOp → Except String DBState
  | [] => .ok s
  | op :: ops =>
    match addTaskDependency s op.project_id op.parent_task_id
        op.child_task_id op.dependency_type op.dependency_id op.created_at with
    | .error e => .error e
    | .ok (s', _) => applyAdds s' ops

/-- The completion-gating sub-list of an edge list: the edges of type blocks
or prerequisite (subtask edges never gate completion). -/
def gatingEdges (edges : List TaskDependency) : List TaskDependency :=
  edges.filter (fun e =>
    e.dependency_type == "blocks" || e.dependency_type == "prerequisite")

set_option linter.unusedVariables false in
/-- Instrumented copy of the search loop recording, in order, the nodes the
loop marks visited (`visited.add` in the source). -/
def dfsTrace (edges : List TaskDependency) (parentTaskId : String) :
    (remaining : List String) → (stack : List String) → Bool × List String
  | _, [] => (false, [])
  | remaining, currentId :: rest =>
    if h : currentId ∈ remaining then
      if currentId = parentTaskId then (true, [currentId])
      else
        let r := dfsTrace edges parentTaskId (remaining.erase currentId)
          (succs edges currentId ++ rest)
        (r.1, currentId :: r.2)
    else dfsTrace edges parentTaskId remaining rest
termination_by remaining stack => (remaining.length, stack.length)
decreasing_by
  · apply Prod.Lex.left
    have hlen := List.length_erase_of_mem h
    have hpos : 0 < remaining.length := List.length_pos.mpr (List.ne_nil_of_mem h)
    omega
  · apply Prod.Lex.right
    simp

set_option linter.unusedVariables false in
/-- Instrumented copy of the search loop counting its iterations (one per
popped stack entry). -/
def dfsIters (edges : List TaskDependency) (parentTaskId : String) :
    (remaining : List String) → (stack : List String) → Nat
  | _, [] => 0
  | remaining, currentId :: rest =>
    if h : currentId ∈ remaining then
      if currentId = parentTaskId then 1
      else 1 + dfsIters edges parentTaskId (remaining.erase currentId)
        (succs edges currentId ++ rest)
    else 1 + dfsIters edges parentTaskId remaining rest
termination_by remaining stack => (remaining.length, stack.length)
decreasing_by
  · apply Prod.Lex.left
    have hlen := List.length_erase_of_mem h
    have hpos : 0 < remaining.length := List.length_pos.mpr (List.ne_nil_of_mem h)
    omega
  · apply Prod.Lex.right
    simp

/-- The instrumentation returns the same answer as the embedded search. -/
theorem dfsTrace_fst (edges : List TaskDependency) (p : String) :
    ∀ remaining stack,
      (dfsTrace edges p remaining stack).1 = dfs edges p remaining stack := by
  intro remaining stack
  induction remaining, stack using dfs.induct edges p with
  | case1 remaining => simp [dfs, dfsTrace]
  | case2 remaining rest hmem => simp [dfs, dfsTrace, hmem]
  | case3 remaining c rest hmem hne ih =>
    simp only [dfs, dfsTrace, dif_pos hmem, if_neg hne]
    exact ih
  | case4 remaining c rest hmem ih =>
    simp only [dfs, dfsTrace, dif_neg hmem]
    exact ih

/-- Every recorded visit was an element of `remaining` when recorded. -/
theorem dfsTrace_subset (edges : List TaskDependency) (p : String) :
    ∀ remaining stack,
      ∀ x ∈ (dfsTrace edges p remaining stack).2, x ∈ remaining := by
  intro remaining stack
  induction remaining, stack using dfs.induct edges p with
  | case1 remaining => simp [dfsTrace]
  | case2 remaining rest hmem =>
    simp only [dfsTrace, dif_pos hmem, if_pos rfl]
    intro x hx
    rcases List.mem_cons.mp hx with hx | hx
    · exact hx ▸ hmem
    · exact absurd hx (List.not_mem_nil x)
  | case3 remaining c rest hmem hne ih =>
    simp only [dfsTrace, dif_pos hmem, if_neg hne]
    intro x hx
    rcases List.mem_cons.mp hx with hx | hx
    · exact hx ▸ hmem
    · exact List.mem_of_mem_erase (ih x hx)
  | case4 remaining c rest hmem ih =>
    simp only [dfsTrace, dif_neg hmem]
    exact ih

/-- The visited-set discipline of the loop: starting from a duplicate-free
`remaining`, no node is ever visited twice. -/
theorem dfsTrace_nodup (edges : List TaskDependency) (p : String) :
    ∀ remaining stack, remaining.Nodup →
      (dfsTrace edges p remaining stack).2.Nodup := by
  intro remaining stack
  induction remaining, stack using dfs.induct edges p with
  | case1 remaining => simp [dfsTrace]
  | case2 remaining rest hmem =>
    intro _
    simp [dfsTrace, hmem]
  | case3 remaining c rest hmem hne ih =>
    intro hnd
    simp only [dfsTrace, dif_pos hmem, if_neg hne]
    refine List.nodup_cons.mpr ⟨?_, ih (hnd.erase c)⟩
    intro hcon
    have := dfsTrace_subset edges p (remaining.erase c)
      (succs edges c ++ rest) c hcon
    exact absurd ((hnd.mem_erase_iff).mp this).1 (fun hh => hh rfl)
  | case4 remaining c rest hmem ih =>
    intro hnd
    simp only [dfsTrace, dif_neg hmem]
    exact ih hnd

/-- The iteration count is bounded by the stack size plus, for each
unvisited node, its out-degree plus one. -/
theorem dfsIters_le (edges : List TaskDependency) (p : String) :
    ∀ remaining stack,
      dfsIters edges p remaining stack ≤
        stack.length +
          (remaining.map (fun v => (succs edges v).length + 1)).sum := by
  intro remaining stack
  induction remaining, stack using dfs.induct edges p with
  | case1 remaining => simp [dfsIters]
  | case2 remaining rest hmem =>
    simp [dfsIters, hmem]
    omega
  | case3 remaining c rest hmem hne ih =>
    simp only [dfsIters, dif_pos hmem, if_neg hne]
    have hperm : remaining.Perm (c :: remaining.erase c) :=
      List.perm_cons_erase hmem
    have hsum : (remaining.map (fun v => (succs edges v).length + 1)).sum =
        ((succs edges c).length + 1) +
          ((remaining.erase c).map (fun v => (succs edges v).length + 1)).sum := by
      have := (hperm.map (fun v => (succs edges v).length + 1)).sum_eq
      simpa using this
    have hlen : (succs edges c ++ rest).length =
        (succs edges c).length + rest.length := List.length_append _ _
    simp only [List.length_cons]
    omega
  | case4 remaining c rest hmem ih =>
    simp only [dfsIters, dif_neg hmem]
    simp only [List.length_cons]
    omega

/-- Out-degrees summed over a duplicate-free node list never exceed the edge
count: each edge contributes to at most one node's successor list. -/
theorem sum_succs_le (edges : List TaskDependency) :
    ∀ l : List String, l.Nodup →
      (l.map (fun v => (succs edges v).length)).sum ≤ edges.length := by
  intro l
  induction l generalizing edges with
  | nil => simp
  | cons v l' ih =>
    intro hnd
    have hnd' := (List.nodup_cons.mp hnd).2
    have hvnot := (List.nodup_cons.mp hnd).1
    have hsplit := List.length_eq_length_filter_add
      (l := edges) (fun e => e.parent_task_id == v)
    have hrest : ∀ w ∈ l', (succs edges w).length =
        (succs (edges.filter (fun e => !(e.parent_task_id == v))) w).length := by
      intro w hw
      have hwv : w ≠ v := fun hh => hvnot (hh ▸ hw)
      simp only [succs, List.length_map, List.filter_filter]
      rw [← List.countP_eq_length_filter, ← List.countP_eq_length_filter]
      apply List.countP_congr
      intro e _
      by_cases he : e.parent_task_id = w
      · simp [he, hwv]
      · simp [he]
    have hmapeq : (l'.map (fun w => (succs edges w).length)).sum =
        (l'.map (fun w =>
          (succs (edges.filter (fun e => !(e.parent_task_id == v))) w).length)).sum := by
      congr 1
      exact List.map_congr_left hrest
    have hih := ih (edges.filter (fun e => !(e.parent_task_id == v))) hnd'
    have hv : (succs edges v).length =
        (edges.filter (fun e => e.parent_task_id == v)).length := by
      simp [succs]
    simp only [List.map_cons, List.sum_cons]
    rw [hv, hmapeq]
    omega

/-- The empty edge list has no cycle. -/
theorem noCycle_nil : NoCycle [] := by
  intro v h
  rcases Relation.TransGen.head'_iff.mp h with ⟨w, hstep, _⟩
  rcases (stepRel_iff [] v w).mp hstep with ⟨e, he, _, _⟩
  exact absurd he (List.not_mem_nil e)

/-- Reachability over the empty edge list is equality. -/
theorem reach_nil (a b : String) (h : Reaches [] a b) : a = b := by
  induction h with
  | refl => rfl
  | tail _ hstep _ =>
    rcases (stepRel_iff [] _ _).mp hstep with ⟨e, he, _, _⟩
    exact absurd he (List.not_mem_nil e)

/-- A single non-self edge has no cycle. -/
theorem noCycle_single (e : TaskDependency)
    (h : e.parent_task_id ≠ e.child_task_id) : NoCycle [e] := by
  refine noCycle_cons e [] noCycle_nil ?_
  intro hr
  exact h (reach_nil _ _ hr).symm

/-- The self-loop is detected immediately: the search starts at
`childTaskId`, which equals `parentTaskId`. -/
theorem wouldCreateCircularDependency_self (edges : List TaskDependency)
    (p : String) : wouldCreateCircularDependency edges p p = true := by
  have hmem : p ∈ nodePool edges p :=
    List.mem_dedup.mpr (List.mem_cons_self _ _)
  simp only [wouldCreateCircularDependency, dfs, dif_pos hmem]
  simp

/-- Inversion of a successful `addTaskDependency`: the two task lookups
succeeded, the cycle guard answered false, and the new state is the old one
with the new edge row inserted. -/
theorem addTaskDependency_ok_inv {s : DBState}
    {pid p c ty d n : String} {s1 : DBState} {r : AddDependencyResult}
    (h : addTaskDependency s pid p c ty d n = .ok (s1, r)) :
    wouldCreateCircularDependency s.task_dependencies p c = false ∧
      s1 = { s with task_dependencies :=
        ⟨d, pid, p, c, ty, n⟩ :: s.task_dependencies } := by
  unfold addTaskDependency at h
  split_ifs at h with h1 h2 h3
  all_goals
    first
      | exact Except.noConfusion h
      | exact ⟨by simpa using h3, (congrArg Prod.fst (Except.ok.inj h)).symm⟩

/-- A successful `addTaskDependency` on an acyclic store leaves the full edge
set acyclic: the guard answered false, so the child endpoint could not reach
the parent endpoint, and `noCycle_cons` applies. -/
theorem addTaskDependency_preserves_noCycle {s : DBState}
    {pid p c ty d n : String} {s1 : DBState} {r : AddDependencyResult}
    (hacyc : NoCycle s.task_dependencies)
    (h : addTaskDependency s pid p c ty d n = .ok (s1, r)) :
    NoCycle s1.task_dependencies := by
  obtain ⟨hguard, hstate⟩ := addTaskDependency_ok_inv h
  have hnr : ¬ Reaches s.task_dependencies c p := by
    intro hr
    have := (wouldCreateCircularDependency_iff s.task_dependencies p c).mpr hr
    rw [hguard] at this
    exact Bool.false_ne_true this
  subst hstate
  exact noCycle_cons _ _ hacyc hnr

/-- A successful sequence of `addTaskDependency` calls on an acyclic store
leaves the full edge set acyclic. -/
theorem applyAdds_preserves_noCycle :
    ∀ (ops : List AddOp) (s s' : DBState),
      NoCycle s.task_dependencies → applyAdds s ops = .ok s' →
      NoCycle s'.task_dependencies := by
  intro ops
  induction ops with
  | nil =>
    intro s s' hacyc h
    simp only [applyAdds] at h
    cases h
    exact hacyc
  | cons op ops ih =>
    intro s s' hacyc h
    simp only [applyAdds] at h
    cases hadd : addTaskDependency s op.project_id op.parent_task_id
        op.child_task_id op.dependency_type op.dependency_id op.created_at with
    | error e =>
      rw [hadd] at h
      exact absurd h (by simp)
    | ok pr =>
      rw [hadd] at h
      exact ih pr.1 s'
        (addTaskDependency_preserves_noCycle hacyc (by rw [hadd])) h

/-- `pre` followed by anything has `pre` as a leading piece. -/
theorem msgStarts_append_self (pre rest : String) :
    msgStarts pre (pre ++ rest) = true := by
  simp only [msgStarts, decide_eq_true_eq]
  exact ⟨rest.data, (String.data_append pre rest).symm⟩

/-- A leading-piece test against `fixed ++ rest` fails whenever `pre`
disagrees with `fixed` within `fixed`'s length, whatever `rest` is. -/
theorem msgStarts_append_false (pre fixed rest : String)
    (hlen : pre.data.length ≤ fixed.data.length)
    (hne : pre.data ≠ fixed.data.take pre.data.length) :
    msgStarts pre (fixed ++ rest) = false := by
  simp only [msgStarts, decide_eq_false_iff_not]
  intro hpre
  apply hne
  have h1 : pre.data = ((fixed ++ rest).data).take pre.data.length :=
    List.prefix_iff_eq_take.mp hpre
  rw [String.data_append, List.take_append_eq_append_take,
    Nat.sub_eq_zero_of_le hlen, List.take_zero, List.append_nil] at h1
  exact h1

/-- `fixed ++ rest` never equals `q` when `fixed` and `q` disagree within the
first `n` characters, whatever `rest` is. -/
theorem append_ne_of_take (fixed rest q : String) (n : Nat)
    (hn : n ≤ fixed.data.length)
    (hne : fixed.data.take n ≠ q.data.take n) :
    (fixed ++ rest == q) = false := by
  apply beq_eq_false_iff_ne.mpr
  intro h
  apply hne
  have hd : (fixed ++ rest).data = q.data := by rw [h]
  rw [String.data_append] at hd
  calc fixed.data.take n = (fixed.data ++ rest.data).take n := by
        rw [List.take_append_eq_append_take, Nat.sub_eq_zero_of_le hn,
          List.take_zero, List.append_nil]
    _ = q.data.take n := by rw [hd]

/-- The completion-gate message is always classified `Blocked`. -/
theorem errorKindOf_blockedByMsg (deps : List GatingDep) :
    errorKindOf (blockedByMsg deps) = .Blocked := by
  have hmsg : blockedByMsg deps =
      "Cannot complete task: blocked by unsatisfied dependencies: " ++
        String.intercalate ", "
          (deps.map (fun dep => "\"" ++ dep.title ++ "\" (" ++ dep.status ++ ")")) := rfl
  rw [hmsg]
  unfold errorKindOf
  rw [msgStarts_append_false "Parent task not found: " _ _ (by decide) (by decide),
    msgStarts_append_false "Child task not found: " _ _ (by decide) (by decide),
    msgStarts_append_false "Task not found: " _ _ (by decide) (by decide),
    msgStarts_append_false "Blocker not found: " _ _ (by decide) (by decide),
    append_ne_of_take _ _ cycleErrorMsg 9 (by decide) (by decide),
    msgStarts_append_self]
  rfl

/-- The missing-task message is always classified `NotFound`. -/
theorem errorKindOf_taskNotFound (taskId : String) :
    errorKindOf ("Task not found: " ++ taskId) = .NotFound := by
  unfold errorKindOf
  rw [msgStarts_append_self "Task not found: " taskId]
  simp

/-- Membership in the gate query's rows, in terms of the underlying tables.
The forward direction needs nothing; the backward direction needs task ids to
be duplicate-free (they are the primary key), so that the join's lookup finds
exactly the intended parent row. -/
theorem mem_gatingDeps_iff {s : DBState} (hnd : (s.tasks.map Task.id).Nodup)
    (taskId : String) (dep : GatingDep) :
    dep ∈ gatingDeps s taskId ↔
      ∃ td ∈ s.task_dependencies, td.child_task_id = taskId ∧
        (td.dependency_type = "blocks" ∨ td.dependency_type = "prerequisite") ∧
        ∃ pt ∈ s.tasks, pt.id = td.parent_task_id ∧
          dep = ⟨pt.id, pt.title, pt.status, td.dependency_type⟩ := by
  constructor
  · intro hmem
    obtain ⟨td, htd, hsome⟩ := List.mem_filterMap.mp hmem
    obtain ⟨hin, hcond⟩ := List.mem_filter.mp htd
    have hcond' := hcond
    simp only [Bool.and_eq_true, Bool.or_eq_true, beq_iff_eq] at hcond'
    cases hfind : s.tasks.find? (fun t => t.id == td.parent_task_id) with
    | none => rw [hfind] at hsome; exact absurd hsome (by simp)
    | some pt =>
      rw [hfind] at hsome
      have hpt : pt ∈ s.tasks := List.mem_of_find?_eq_some hfind
      have hid : pt.id = td.parent_task_id := by
        have := List.find?_some hfind
        exact beq_iff_eq.mp this
      refine ⟨td, hin, hcond'.1, hcond'.2, pt, hpt, hid, ?_⟩
      simpa using hsome.symm
  · rintro ⟨td, hin, hchild, htype, pt, hpt, hid, hdep⟩
    apply List.mem_filterMap.mpr
    refine ⟨td, ?_, ?_⟩
    · exact List.mem_filter.mpr ⟨hin, by
        simp only [Bool.and_eq_true, Bool.or_eq_true, beq_iff_eq]
        exact ⟨hchild, htype⟩⟩
    · have hissome : (s.tasks.find? (fun t => t.id == td.parent_task_id)).isSome := by
        apply List.find?_isSome.mpr
        exact ⟨pt, hpt, beq_iff_eq.mpr hid⟩
      cases hfind : s.tasks.find? (fun t => t.id == td.parent_task_id) with
      | none => rw [hfind] at hissome; exact absurd hissome (by simp)
      | some pt' =>
        have hpt' : pt' ∈ s.tasks := List.mem_of_find?_eq_some hfind
        have hfs := List.find?_some hfind
        have hid' : pt'.id = td.parent_task_id := beq_iff_eq.mp hfs
        have : pt' = pt :=
          List.inj_on_of_nodup_map hnd hpt' hpt (by rw [hid', hid])
        subst this
        simp [hdep]

/-- The gate's verdict is positive exactly when no joined parent row has a
status other than completed. -/
theorem canCompleteTask_can_iff (s : DBState) (taskId : String) :
    (canCompleteTask s taskId).can_complete = true ↔
      ∀ dep ∈ gatingDeps s taskId, dep.status = "completed" := by
  simp only [canCompleteTask, List.length_eq_zero, beq_iff_eq,
    List.filter_eq_nil_iff, Bool.not_eq_eq_eq_not, Bool.not_true,
    beq_eq_false_iff_ne, ne_eq, Decidable.not_not]

/-- The unsatisfied list of the gate is the gate rows whose status is not
completed. -/
theorem mem_unsatisfied_iff (s : DBState) (taskId : String) (dep : GatingDep) :
    dep ∈ (canCompleteTask s taskId).unsatisfied_dependencies ↔
      dep ∈ gatingDeps s taskId ∧ dep.status ≠ "completed" := by
  simp [canCompleteTask]

/-- A task row with the given key fields and defaulted remaining columns
(`createTask` defaults: priority medium, empty description/assignee/notes). -/
def mkTask (id projectId title status : String) : Task :=
  ⟨id, projectId, title, "", status, "medium", "", "", none, "t0", "t0", none⟩

/-- Store with a single task A and no edges. -/
def exSelf : DBState :=
  ⟨[mkTask "A" "p1" "Task A" "todo"], [], [], []⟩

/-- Store with tasks A and B and no edges. -/
def exPair : DBState :=
  ⟨[mkTask "A" "p1" "Task A" "todo", mkTask "B" "p1" "Task B" "todo"], [], [], []⟩

/-- Store with tasks A and B and a blocks edge A→B. -/
def exPairAB : DBState :=
  { exPair with task_dependencies := [⟨"d1", "p1", "A", "B", "blocks", "t1"⟩] }

/-- Store with tasks A and B and a subtask edge A→B. -/
def exSubtask : DBState :=
  { exPair with task_dependencies := [⟨"d1", "p1", "A", "B", "subtask", "t1"⟩] }

/-- Helper for sums of successor-counts-plus-one. -/
theorem sum_map_add_one (l : List String) (g : String → Nat) :
    (l.map (fun v => g v + 1)).sum = (l.map g).sum + l.length := by
  induction l with
  | nil => simp
  | cons a l ih =>
    simp only [List.map_cons, List.sum_cons, List.length_cons, ih]
    omega

/-- C4: for every pair of task ids and every edge set, the cycle check
answers true exactly when `parent_id` is reachable from `child_id` by
following existing edges forward, from each edge's parent endpoint to its
child endpoint, starting at `child_id` (reachability taken reflexively:
the walk of the source starts by testing `child_id` itself). -/
theorem claim_C4 (edges : List TaskDependency) (parent_id child_id : String) :
    wouldCreateCircularDependency edges parent_id child_id = true ↔
      Reaches edges child_id parent_id :=
  wouldCreateCircularDependency_iff edges parent_id child_id

/-- C9: the reachability search terminates on every finite edge set with an
O(V+E) iteration bound — at most `1 + |pool| + |edges|` loop iterations,
with no fixed depth bound — and its visited-set discipline marks each node
at most once; the instrumented loop used to state this returns exactly the
embedded check's answer. -/
theorem claim_C9 :
    (∀ (edges : List TaskDependency) (p c : String),
      dfsIters edges p (nodePool edges c) [c] ≤
        1 + (nodePool edges c).length + edges.length) ∧
    (∀ (edges : List TaskDependency) (p c : String),
      (dfsTrace edges p (nodePool edges c) [c]).2.Nodup) ∧
    (∀ (edges : List TaskDependency) (p c : String),
      (dfsTrace edges p (nodePool edges c) [c]).1 =
        wouldCreateCircularDependency edges p c) := by
  refine ⟨?_, ?_, ?_⟩
  · intro edges p c
    have h1 := dfsIters_le edges p (nodePool edges c) [c]
    have h2 := sum_succs_le edges (nodePool edges c) (List.nodup_dedup _)
    have h3 := sum_map_add_one (nodePool edges c)
      (fun v => (succs edges v).length)
    simp only [List.length_cons, List.length_nil] at h1
    omega
  · intro edges p c
    exact dfsTrace_nodup edges p _ _ (List.nodup_dedup _)
  · intro edges p c
    exact dfsTrace_fst edges p _ _

/-- C8: `removeTaskDependency` is total (never an error); it removes exactly
the matching edges and reports their count; with the type omitted no edge
between the pair survives; repeating the call removes nothing further; and
with no matching edge it is a zero-changes no-op reporting failure-free
non-success. -/
theorem claim_C8 (s : DBState) (p c : String) (ty : Option String) :
    (∀ td, td ∈ (removeTaskDependency s p c ty).1.task_dependencies ↔
      (td ∈ s.task_dependencies ∧ depMatches p c ty td = false)) ∧
    ((removeTaskDependency s p c ty).2.changes +
      (removeTaskDependency s p c ty).1.task_dependencies.length =
      s.task_dependencies.length) ∧
    (ty = none → ∀ td ∈ (removeTaskDependency s p c ty).1.task_dependencies,
      ¬(td.parent_task_id = p ∧ td.child_task_id = c)) ∧
    ((removeTaskDependency (removeTaskDependency s p c ty).1 p c ty).2.changes = 0 ∧
      (removeTaskDependency (removeTaskDependency s p c ty).1 p c ty).1 =
        (removeTaskDependency s p c ty).1) ∧
    ((∀ td ∈ s.task_dependencies, depMatches p c ty td = false) →
      (removeTaskDependency s p c ty).2.changes = 0 ∧
      (removeTaskDependency s p c ty).1 = s ∧
      (removeTaskDependency s p c ty).2.success = false) := by
  refine ⟨?_, ?_, ?_, ⟨?_, ?_⟩, ?_⟩
  · intro td
    simp [removeTaskDependency, List.mem_filter]
  · have h := List.length_eq_length_filter_add
      (l := s.task_dependencies) (depMatches p c ty)
    simp only [removeTaskDependency]
    omega
  · intro hty td htd
    subst hty
    have hmf := (List.mem_filter.mp htd).2
    simp only [depMatches, Bool.not_eq_eq_eq_not, Bool.not_true,
      Bool.and_eq_false_iff] at hmf
    rintro ⟨hp, hc⟩
    rcases hmf with h | h <;> simp [hp, hc] at h
  · simp only [removeTaskDependency, List.filter_filter]
    rw [List.length_eq_zero]
    apply List.filter_eq_nil_iff.mpr
    intro td htd
    cases h : depMatches p c ty td <;> simp [h]
  · simp only [removeTaskDependency, List.filter_filter]
    congr 1
    apply List.filter_congr
    intro td htd
    simp [Bool.and_self]
  · intro hall
    have hfilter : s.task_dependencies.filter (depMatches p c ty) = [] :=
      List.filter_eq_nil_iff.mpr (fun td htd => by simp [hall td htd])
    have hkeep : s.task_dependencies.filter
        (fun td => !(depMatches p c ty td)) = s.task_dependencies := by
      apply List.filter_eq_self.mpr
      intro td htd
      simp [hall td htd]
    refine ⟨?_, ?_, ?_⟩
    · simp [removeTaskDependency, hfilter]
    · simp [removeTaskDependency, hkeep]
    · simp [removeTaskDependency, hfilter]

/-- C8 (witness): concrete instance — removing from a store with one blocks
edge A→B: every matching edge goes, and removal of the non-existent reverse
pair is a zero-changes non-error. -/
theorem claim_C8_witness :
    (∀ td, td ∈ (removeTaskDependency exPairAB "A" "B" none).1.task_dependencies ↔
      (td ∈ exPairAB.task_dependencies ∧ depMatches "A" "B" none td = false)) ∧
    (∀ td ∈ (removeTaskDependency exPairAB "A" "B" none).1.task_dependencies,
      ¬(td.parent_task_id = "A" ∧ td.child_task_id = "B")) ∧
    ((removeTaskDependency exPairAB "B" "A" none).2.changes = 0 ∧
      (removeTaskDependency exPairAB "B" "A" none).1 = exPairAB ∧
      (removeTaskDependency exPairAB "B" "A" none).2.success = false) := by
  refine ⟨(claim_C8 exPairAB "A" "B" none).1,
    (claim_C8 exPairAB "A" "B" none).2.2.1 rfl,
    (claim_C8 exPairAB "B" "A" none).2.2.2.2 ?_⟩
  intro td htd
  have : td = ⟨"d1", "p1", "A", "B", "blocks", "t1"⟩ := by
    rcases List.mem_cons.mp htd with h | h
    · exact h
    · exact absurd h (List.not_mem_nil td)
  subst this
  decide

/-- C5 (counterexample): add_dependency(A, A) on a store containing task A
fails with the circular-dependency error — classified `CycleDetected`, not
`InvalidArgument` as the claim states. -/
theorem claim_C5_counterexample :
    addTaskDependency exSelf "p1" "A" "A" "blocks" "d1" "t1" =
      .error cycleErrorMsg ∧
    errorKindOf cycleErrorMsg = SpecErrorKind.CycleDetected ∧
    SpecErrorKind.CycleDetected ≠ SpecErrorKind.InvalidArgument := by
  refine ⟨?_, by decide, by decide⟩
  have h1 : ((exSelf.tasks).find? (fun t => t.id == "A")).isNone = false := by
    decide
  simp [addTaskDependency, h1, wouldCreateCircularDependency_self]

/-- C5 (amended): a self-referencing add_dependency(A, A) on any store in
which task A exists fails — but with `CycleDetected` (the cycle guard sees A
as trivially reachable from itself), not `InvalidArgument` — and inserts no
edge. -/
theorem claim_C5_amended (s : DBState) (pid A ty d n : String)
    (hA : ∃ t ∈ s.tasks, t.id = A) :
    addTaskDependency s pid A A ty d n = .error cycleErrorMsg ∧
    errorKindOf cycleErrorMsg = SpecErrorKind.CycleDetected := by
  obtain ⟨t, ht, hid⟩ := hA
  constructor
  · have hiss : (s.tasks.find? (fun t => t.id == A)).isSome :=
      List.find?_isSome.mpr ⟨t, ht, beq_iff_eq.mpr hid⟩
    unfold addTaskDependency
    cases hfind : s.tasks.find? (fun t => t.id == A) with
    | none => rw [hfind] at hiss; simp at hiss
    | some t' => simp [hfind, wouldCreateCircularDependency_self]
  · decide

/-- C5 (witness): the amended statement at the concrete one-task store. -/
theorem claim_C5_witness :
    addTaskDependency exSelf "p1" "A" "A" "blocks" "d1" "t1" =
      .error cycleErrorMsg ∧
    errorKindOf cycleErrorMsg = SpecErrorKind.CycleDetected :=
  claim_C5_amended exSelf "p1" "A" "blocks" "d1" "t1"
    ⟨mkTask "A" "p1" "Task A" "todo", by decide, rfl⟩

/-- Evaluation of the concrete successful add from `exPair` to `exPairAB`. -/
theorem addTaskDependency_exPair :
    addTaskDependency exPair "p1" "A" "B" "blocks" "d1" "t1" =
      .ok (exPairAB, ⟨"d1", "A", "B", "blocks", 1⟩) := by
  have hfA : ((exPair.tasks).find? (fun t => t.id == "A")).isNone = false := by
    decide
  have hfB : ((exPair.tasks).find? (fun t => t.id == "B")).isNone = false := by
    decide
  have hguard : wouldCreateCircularDependency ([] : List TaskDependency)
      "A" "B" = false := by
    simp [wouldCreateCircularDependency, dfs, nodePool, succs]
  simp [addTaskDependency, hfA, hfB, hguard, exPairAB, exPair, mkTask]

/-- C1: for every sequence of add_dependency calls that individually
succeed, starting from a state whose edge set is acyclic, the committed
edge set restricted to blocks/prerequisite edges has no directed cycle;
and an add_dependency whose edge would close a cycle — its child endpoint
already reaches its parent endpoint — fails with the CycleDetected error and
inserts nothing (an error leaves the store untouched by construction). -/
theorem claim_C1 :
    (∀ (s0 : DBState) (ops : List AddOp) (s1 : DBState),
      NoCycle s0.task_dependencies → applyAdds s0 ops = .ok s1 →
      NoCycle (gatingEdges s1.task_dependencies)) ∧
    (∀ (s : DBState) (pid p c ty d n : String),
      (∃ t ∈ s.tasks, t.id = p) → (∃ t ∈ s.tasks, t.id = c) →
      Reaches s.task_dependencies c p →
      addTaskDependency s pid p c ty d n = .error cycleErrorMsg ∧
      errorKindOf cycleErrorMsg = SpecErrorKind.CycleDetected) := by
  constructor
  · intro s0 ops s1 hacyc hok
    exact noCycle_filter _ _ (applyAdds_preserves_noCycle ops s0 s1 hacyc hok)
  · rintro s pid p c ty d n ⟨tp, htp, hidp⟩ ⟨tc, htc, hidc⟩ hreach
    refine ⟨?_, by decide⟩
    have hip : (s.tasks.find? (fun t => t.id == p)).isSome :=
      List.find?_isSome.mpr ⟨tp, htp, beq_iff_eq.mpr hidp⟩
    have hic : (s.tasks.find? (fun t => t.id == c)).isSome :=
      List.find?_isSome.mpr ⟨tc, htc, beq_iff_eq.mpr hidc⟩
    have hguard : wouldCreateCircularDependency s.task_dependencies p c = true :=
      (wouldCreateCircularDependency_iff s.task_dependencies p c).mpr hreach
    unfold addTaskDependency
    cases hfp : s.tasks.find? (fun t => t.id == p) with
    | none => rw [hfp] at hip; simp at hip
    | some t1 =>
      cases hfc : s.tasks.find? (fun t => t.id == c) with
      | none => rw [hfc] at hic; simp at hic
      | some t2 => simp [hfp, hfc, hguard]

/-- C1 (witness): the acyclicity consequence after a concrete successful
add, and the concrete rejection of the cycle-closing reverse edge. -/
theorem claim_C1_witness :
    NoCycle (gatingEdges exPairAB.task_dependencies) ∧
    addTaskDependency exPairAB "p1" "B" "A" "blocks" "d2" "t2" =
      .error cycleErrorMsg := by
  constructor
  · apply claim_C1.1 exPair [⟨"p1", "A", "B", "blocks", "d1", "t1"⟩] exPairAB
      noCycle_nil
    simp [applyAdds, addTaskDependency_exPair]
  · refine (claim_C1.2 exPairAB "p1" "B" "A" "blocks" "d2" "t2"
      ⟨mkTask "B" "p1" "Task B" "todo", by decide, rfl⟩
      ⟨mkTask "A" "p1" "Task A" "todo", by decide, rfl⟩ ?_).1
    have hstep : stepRel exPairAB.task_dependencies "A" "B" := by
      unfold stepRel succs
      decide
    exact Relation.ReflTransGen.single hstep

/-- C10: the cycle guard traverses edges of every dependency_type, so a
successful add keeps the full edge set (all three types) acyclic; and
conversely an add is rejected for a cycle existing only through a subtask
edge, even though that subtask edge does not gate completion
(`can_complete` is true for its child). -/
theorem claim_C10 :
    (∀ (s : DBState) (pid p c ty d n : String) (s1 : DBState)
        (r : AddDependencyResult),
      NoCycle s.task_dependencies →
      addTaskDependency s pid p c ty d n = .ok (s1, r) →
      NoCycle s1.task_dependencies) ∧
    (addTaskDependency exSubtask "p1" "B" "A" "blocks" "d2" "t2" =
        .error cycleErrorMsg ∧
      (canCompleteTask exSubtask "B").can_complete = true) := by
  refine ⟨?_, ?_, by decide⟩
  · intro s pid p c ty d n s1 r hacyc hok
    exact addTaskDependency_preserves_noCycle hacyc hok
  · have hfB : ((exSubtask.tasks).find? (fun t => t.id == "B")).isNone = false := by
      decide
    have hfA : ((exSubtask.tasks).find? (fun t => t.id == "A")).isNone = false := by
      decide
    have hguard : wouldCreateCircularDependency exSubtask.task_dependencies
        "B" "A" = true := by
      simp [wouldCreateCircularDependency, dfs, nodePool, succs, exSubtask,
        List.dedup]
    simp [addTaskDependency, hfB, hfA, hguard]

/-- C10 (witness): the preservation statement applied at the concrete
successful add from the empty edge set. -/
theorem claim_C10_witness : NoCycle exPairAB.task_dependencies :=
  claim_C10.1 exPair "p1" "A" "B" "blocks" "d1" "t1" exPairAB
    ⟨"d1", "A", "B", "blocks", 1⟩ noCycle_nil addTaskDependency_exPair

/-- Forward direction of the gate-row characterization, valid without any
uniqueness assumption: a joined row exhibits an edge and a parent task. -/
theorem mem_gatingDeps_elim {s : DBState} {taskId : String} {dep : GatingDep}
    (hmem : dep ∈ gatingDeps s taskId) :
    ∃ td ∈ s.task_dependencies, td.child_task_id = taskId ∧
      (td.dependency_type = "blocks" ∨ td.dependency_type = "prerequisite") ∧
      ∃ pt ∈ s.tasks, pt.id = td.parent_task_id ∧
        dep = ⟨pt.id, pt.title, pt.status, td.dependency_type⟩ := by
  obtain ⟨td, htd, hsome⟩ := List.mem_filterMap.mp hmem
  obtain ⟨hin, hcond⟩ := List.mem_filter.mp htd
  simp only [Bool.and_eq_true, Bool.or_eq_true, beq_iff_eq] at hcond
  cases hfind : s.tasks.find? (fun t => t.id == td.parent_task_id) with
  | none => rw [hfind] at hsome; exact absurd hsome (by simp)
  | some pt =>
    rw [hfind] at hsome
    have hpt : pt ∈ s.tasks := List.mem_of_find?_eq_some hfind
    have hfs := List.find?_some hfind
    have hid : pt.id = td.parent_task_id := beq_iff_eq.mp hfs
    refine ⟨td, hin, hcond.1, hcond.2, pt, hpt, hid, ?_⟩
    simpa using hsome.symm

/-- The gate's verdict is the emptiness test of its unsatisfied list. -/
theorem canCompleteTask_can_eq (s : DBState) (taskId : String) :
    (canCompleteTask s taskId).can_complete =
      ((canCompleteTask s taskId).unsatisfied_dependencies.length == 0) := rfl

/-- Store with tasks P (todo) and C, and a blocks edge P→C. -/
def exBlocked : DBState :=
  ⟨[mkTask "P" "p1" "Parent Task" "todo", mkTask "C" "p1" "Child Task" "todo"],
   [⟨"d1", "p1", "P", "C", "blocks", "t1"⟩], [], []⟩

/-- Store with tasks P (completed) and C, and a blocks edge P→C. -/
def exSatisfied : DBState :=
  ⟨[mkTask "P" "p1" "Parent Task" "completed", mkTask "C" "p1" "Child Task" "todo"],
   [⟨"d1", "p1", "P", "C", "blocks", "t1"⟩], [], []⟩

/-- C2: when task C has an incoming blocks/prerequisite edge whose parent
task is not completed, complete(C) fails with the Blocked message carrying
exactly the unsatisfied parents' titles and statuses (the unsatisfied list is
characterized against the raw tables) and, failing before any write, leaves
the store unchanged; when every such parent is completed (and C exists),
complete(C) succeeds, setting C's status to completed and recording the
completion timestamp. -/
theorem claim_C2 :
    (∀ (s : DBState) (C : String) (notes : Option String) (ca now : String),
      (s.tasks.map Task.id).Nodup →
      (∃ td ∈ s.task_dependencies, td.child_task_id = C ∧
        (td.dependency_type = "blocks" ∨ td.dependency_type = "prerequisite") ∧
        ∃ pt ∈ s.tasks, pt.id = td.parent_task_id ∧ pt.status ≠ "completed") →
      completeTask s C notes ca now =
        .error (blockedByMsg (canCompleteTask s C).unsatisfied_dependencies) ∧
      errorKindOf (blockedByMsg (canCompleteTask s C).unsatisfied_dependencies) =
        SpecErrorKind.Blocked ∧
      (∀ dep, dep ∈ (canCompleteTask s C).unsatisfied_dependencies ↔
        ∃ td ∈ s.task_dependencies, td.child_task_id = C ∧
          (td.dependency_type = "blocks" ∨ td.dependency_type = "prerequisite") ∧
          ∃ pt ∈ s.tasks, pt.id = td.parent_task_id ∧ pt.status ≠ "completed" ∧
            dep = ⟨pt.id, pt.title, pt.status, td.dependency_type⟩)) ∧
    (∀ (s : DBState) (C : String) (notes : Option String) (ca now : String),
      (∃ t ∈ s.tasks, t.id = C) →
      (∀ td ∈ s.task_dependencies, td.child_task_id = C →
        (td.dependency_type = "blocks" ∨ td.dependency_type = "prerequisite") →
        ∀ pt ∈ s.tasks, pt.id = td.parent_task_id → pt.status = "completed") →
      ∃ s1 r, completeTask s C notes ca now = .ok (s1, r) ∧
        r.completed_at = ca ∧
        (∀ t ∈ s1.tasks, t.id = C →
          t.status = "completed" ∧ t.completed_at = some ca)) := by
  constructor
  · rintro s C notes ca now hnd ⟨td, htd, hchild, htype, pt, hpt, hid, hstat⟩
    have hdep : (⟨pt.id, pt.title, pt.status, td.dependency_type⟩ : GatingDep) ∈
        (canCompleteTask s C).unsatisfied_dependencies :=
      (mem_unsatisfied_iff s C _).mpr
        ⟨(mem_gatingDeps_iff hnd C _).mpr ⟨td, htd, hchild, htype, pt, hpt, hid, rfl⟩,
          hstat⟩
    have hne : (canCompleteTask s C).unsatisfied_dependencies ≠ [] := by
      intro hnil
      rw [hnil] at hdep
      exact (List.not_mem_nil _) hdep
    have hlen : (canCompleteTask s C).unsatisfied_dependencies.length ≠ 0 :=
      fun h0 => hne (List.length_eq_zero.mp h0)
    have hcc : (canCompleteTask s C).can_complete = false := by
      rw [canCompleteTask_can_eq]
      exact beq_eq_false_iff_ne.mpr hlen
    refine ⟨by simp [completeTask, hcc], errorKindOf_blockedByMsg _, ?_⟩
    intro dep
    rw [mem_unsatisfied_iff, mem_gatingDeps_iff hnd]
    constructor
    · rintro ⟨⟨td', htd', hch', hty', pt', hpt', hid', hdepeq⟩, hstatus⟩
      subst hdepeq
      exact ⟨td', htd', hch', hty', pt', hpt', hid', hstatus, rfl⟩
    · rintro ⟨td', htd', hch', hty', pt', hpt', hid', hstat', hdepeq⟩
      subst hdepeq
      exact ⟨⟨td', htd', hch', hty', pt', hpt', hid', rfl⟩, hstat'⟩
  · rintro s C notes ca now ⟨t0, ht0, hid0⟩ hsat
    have hunsat : (canCompleteTask s C).unsatisfied_dependencies = [] := by
      apply List.eq_nil_iff_forall_not_mem.mpr
      intro dep hdep
      obtain ⟨hg, hstat⟩ := (mem_unsatisfied_iff s C dep).mp hdep
      obtain ⟨td, htd, hch, hty, pt, hpt, hid, hdepeq⟩ := mem_gatingDeps_elim hg
      subst hdepeq
      exact hstat (hsat td htd hch hty pt hpt hid)
    have hcc : (canCompleteTask s C).can_complete = true := by
      rw [canCompleteTask_can_eq, hunsat]
      rfl
    have hmemf : t0 ∈ s.tasks.filter (fun t => t.id == C) :=
      List.mem_filter.mpr ⟨ht0, beq_iff_eq.mpr hid0⟩
    have hfil : ((s.tasks.filter (fun t => t.id == C)).length == 0) = false := by
      apply beq_eq_false_iff_ne.mpr
      have := List.length_pos.mpr (List.ne_nil_of_mem hmemf)
      omega
    refine ⟨{ s with tasks := s.tasks.map (fun t =>
        if t.id == C then
          { t with status := "completed", completed_at := some ca,
                   updated_at := now,
                   notes := if strTruthy notes then notes.getD t.notes
                            else t.notes }
        else t) },
      ⟨C, ca, canCompleteTask s C⟩, ?_, rfl, ?_⟩
    · simp [completeTask, hcc, hfil]
    · intro t ht hidt
      obtain ⟨t0', ht0', hmap⟩ := List.mem_map.mp ht
      by_cases hcase : t0'.id = C
      · rw [← hmap]
        simp [beq_iff_eq.mpr hcase]
      · have hb : (t0'.id == C) = false := beq_eq_false_iff_ne.mpr hcase
        rw [← hmap] at hidt
        simp only [hb, if_neg, Bool.false_eq_true, reduceIte] at hidt
        exact absurd hidt hcase

/-- C2 (witness): the blocked failure at the concrete blocked store and the
success after the parent is completed. -/
theorem claim_C2_witness :
    completeTask exBlocked "C" none "t2" "t2" =
      .error (blockedByMsg (canCompleteTask exBlocked "C").unsatisfied_dependencies) ∧
    (∃ s1 r, completeTask exSatisfied "C" none "t2" "t2" = .ok (s1, r) ∧
      r.completed_at = "t2" ∧
      (∀ t ∈ s1.tasks, t.id = "C" →
        t.status = "completed" ∧ t.completed_at = some "t2")) := by
  constructor
  · exact (claim_C2.1 exBlocked "C" none "t2" "t2" (by decide)
      ⟨⟨"d1", "p1", "P", "C", "blocks", "t1"⟩, by decide, rfl, Or.inl rfl,
        mkTask "P" "p1" "Parent Task" "todo", by decide, rfl, by decide⟩).1
  · exact claim_C2.2 exSatisfied "C" none "t2" "t2"
      ⟨mkTask "C" "p1" "Child Task" "todo", by decide, rfl⟩ (by decide)

/-- Store with one task T (todo, no edges), one open blocker B1, and a
blocks-type impact of B1 on T. -/
def exBlocker : DBState :=
  ⟨[mkTask "T" "p1" "Task T" "todo"], [],
   [⟨"B1", "p1", "Blocker One", none, "external", "medium", "open",
     none, none, none, "t0", "t0", none⟩],
   [⟨"I1", "B1", some "T", "blocks", none, none, "t0"⟩]⟩

/-- C3 (counterexample): task T has an open Blocker with a blocks-type
impact and no dependency edges; the blocker ledger reports T as blocked,
yet complete(T) succeeds instead of failing with Blocked — completeTask
never consults blockers. -/
theorem claim_C3_counterexample :
    (∃ b ∈ exBlocker.blockers, b.status = "open" ∧
      ∃ bi ∈ exBlocker.blocker_impacts, bi.blocker_id = b.id ∧
        bi.task_id = some "T" ∧ bi.impact_type = "blocks") ∧
    ((getTasksBlockedByBlockers exBlocker "p1").map (fun row => row.task.id) =
      ["T"]) ∧
    (∃ s1 r, completeTask exBlocker "T" none "t2" "t2" = .ok (s1, r)) := by
  refine ⟨by decide, ?_, ⟨_, _, rfl⟩⟩
  simp [getTasksBlockedByBlockers, openBlockersFor, exBlocker, mkTask]

/-- C3 (amended): blockers never gate completion — the result of
complete(T) is entirely independent of the blockers and blocker_impacts
tables, so a task with an open blocks-impact Blocker completes whenever its
dependency gate passes, and resolving the Blocker is never required. -/
theorem claim_C3_amended (s : DBState) (T : String) (notes : Option String)
    (ca now : String) (bl : List Blocker) (bi : List BlockerImpact) :
    completeTask { s with blockers := bl, blocker_impacts := bi } T notes ca now =
      (completeTask s T notes ca now).map
        (fun pr => ({ pr.1 with blockers := bl, blocker_impacts := bi }, pr.2)) := by
  obtain ⟨tasks, deps, blks, bis⟩ := s
  simp only [completeTask, canCompleteTask, gatingDeps]
  split
  · rfl
  · split
    · rfl
    · rfl

/-- Store with tasks A and B, a blocks edge A→B, an open blocker, and an
impact of that blocker on A. -/
def exDel : DBState :=
  ⟨[mkTask "A" "p1" "Task A" "todo", mkTask "B" "p1" "Task B" "todo"],
   [⟨"d1", "p1", "A", "B", "blocks", "t1"⟩],
   [⟨"B1", "p1", "Blocker One", none, "external", "medium", "open",
     none, none, none, "t0", "t0", none⟩],
   [⟨"I1", "B1", some "A", "blocks", none, none, "t0"⟩]⟩

/-- C6 (counterexample): after deleting task A, `getTaskDependencies` on the
deleted id returns normally with two empty lists — it has no NotFound path —
contradicting the claim that the query fails with NotFound. -/
theorem claim_C6_counterexample :
    ∃ s1, deleteTask exDel "A" = .ok s1 ∧
      getTaskDependencies s1 "A" = ⟨[], []⟩ := by
  exact ⟨_, rfl, by decide⟩

/-- C6 (amended): deleting an existing task cascades away every dependency
edge and blocker impact referencing it (and the task row itself); a
subsequent `getTaskDependencies` on the deleted id returns empty depends_on
and blocks lists rather than failing with NotFound; deleting an absent task
fails with NotFound. -/
theorem claim_C6 :
    (∀ (s : DBState) (id : String), (∃ t ∈ s.tasks, t.id = id) →
      ∃ s1, deleteTask s id = .ok s1 ∧
        (∀ td ∈ s1.task_dependencies, td.parent_task_id ≠ id ∧
          td.child_task_id ≠ id) ∧
        (∀ b ∈ s1.blocker_impacts, b.task_id ≠ some id) ∧
        (∀ t ∈ s1.tasks, t.id ≠ id) ∧
        getTaskDependencies s1 id = ⟨[], []⟩) ∧
    (∀ (s : DBState) (id : String), (∀ t ∈ s.tasks, t.id ≠ id) →
      deleteTask s id = .error ("Task not found: " ++ id) ∧
      errorKindOf ("Task not found: " ++ id) = SpecErrorKind.NotFound) := by
  constructor
  · rintro s id ⟨t0, ht0, hid0⟩
    have hmemf : t0 ∈ s.tasks.filter (fun t => t.id == id) :=
      List.mem_filter.mpr ⟨ht0, beq_iff_eq.mpr hid0⟩
    have hfil : ((s.tasks.filter (fun t => t.id == id)).length == 0) = false := by
      apply beq_eq_false_iff_ne.mpr
      have := List.length_pos.mpr (List.ne_nil_of_mem hmemf)
      omega
    have hdeps : ∀ td ∈ s.task_dependencies.filter
        (fun td => !(td.parent_task_id == id) && !(td.child_task_id == id)),
        td.parent_task_id ≠ id ∧ td.child_task_id ≠ id := by
      intro td htd
      have := (List.mem_filter.mp htd).2
      simp only [Bool.and_eq_true, Bool.not_eq_eq_eq_not, Bool.not_true,
        beq_eq_false_iff_ne, ne_eq] at this
      exact this
    refine ⟨deleteCascade s id, by simp [deleteTask, hfil], hdeps, ?_, ?_, ?_⟩
    · intro b hb
      have := (List.mem_filter.mp hb).2
      simpa using this
    · intro t ht
      obtain ⟨t0', ht0', hmap⟩ := List.mem_map.mp ht
      have hne : t0'.id ≠ id := by
        have := (List.mem_filter.mp ht0').2
        simpa using this
      rw [← hmap]
      split
      · exact hne
      · exact hne
    · have h1 : (s.task_dependencies.filter
          (fun td => !(td.parent_task_id == id) && !(td.child_task_id == id))).filter
          (fun td => td.child_task_id == id) = [] := by
        apply List.filter_eq_nil_iff.mpr
        intro td htd
        have := (hdeps td htd).2
        simp [this]
      have h2 : (s.task_dependencies.filter
          (fun td => !(td.parent_task_id == id) && !(td.child_task_id == id))).filter
          (fun td => td.parent_task_id == id) = [] := by
        apply List.filter_eq_nil_iff.mpr
        intro td htd
        have := (hdeps td htd).1
        simp [this]
      simp only [getTaskDependencies, deleteCascade, h1, h2, List.filterMap_nil]
  · intro s id hall
    have hnil : s.tasks.filter (fun t => t.id == id) = [] := by
      apply List.filter_eq_nil_iff.mpr
      intro t ht
      simp [hall t ht]
    refine ⟨?_, errorKindOf_taskNotFound id⟩
    simp [deleteTask, hnil]

/-- C6 (witness): the amended statement at the concrete store, and the
NotFound failure on an absent id. -/
theorem claim_C6_witness :
    (∃ s1, deleteTask exDel "A" = .ok s1 ∧
      (∀ td ∈ s1.task_dependencies, td.parent_task_id ≠ "A" ∧
        td.child_task_id ≠ "A") ∧
      (∀ b ∈ s1.blocker_impacts, b.task_id ≠ some "A") ∧
      (∀ t ∈ s1.tasks, t.id ≠ "A") ∧
      getTaskDependencies s1 "A" = ⟨[], []⟩) ∧
    (deleteTask exDel "Z" = .error ("Task not found: " ++ "Z") ∧
      errorKindOf ("Task not found: " ++ "Z") = SpecErrorKind.NotFound) :=
  ⟨claim_C6.1 exDel "A" ⟨mkTask "A" "p1" "Task A" "todo", by decide, rfl⟩,
   claim_C6.2 exDel "Z" (by decide)⟩

/-- C7 (counterexample): on an existing task, an update providing no fields
does not perform a timestamp-only write and does not fail with NotFound —
it fails with the InvalidArgument-style message
`No valid update fields provided`. -/
theorem claim_C7_counterexample :
    updateTask exSelf "A" {} "t2" = .error "No valid update fields provided" ∧
    errorKindOf "No valid update fields provided" =
      SpecErrorKind.InvalidArgument ∧
    (∃ t ∈ exSelf.tasks, t.id = "A") :=
  ⟨rfl, by decide, ⟨mkTask "A" "p1" "Task A" "todo", by decide, rfl⟩⟩

/-- C7 (amended): for every existing task and every non-empty provided-field
subset, update writes exactly the provided whitelisted fields plus the
modification timestamp and leaves every other column of the task — and every
other table — unchanged; it fails with NotFound when no task row matches;
an empty provided-field set is rejected with
`No valid update fields provided` before any write. -/
theorem claim_C7 :
    (∀ (s : DBState) (id : String) (u : TaskUpdates) (now : String),
      updatedFieldNames u ≠ [] → (∃ t ∈ s.tasks, t.id = id) →
      updateTask s id u now =
        .ok ({ s with tasks := s.tasks.map (fun t =>
          if t.id == id then applyTaskUpdates u now t else t) },
          ⟨id, updatedFieldNames u⟩)) ∧
    (∀ (u : TaskUpdates) (now : String) (t : Task),
      (applyTaskUpdates u now t).id = t.id ∧
      (applyTaskUpdates u now t).project_id = t.project_id ∧
      (applyTaskUpdates u now t).parent_task_id = t.parent_task_id ∧
      (applyTaskUpdates u now t).created_at = t.created_at ∧
      (applyTaskUpdates u now t).completed_at = t.completed_at ∧
      (applyTaskUpdates u now t).updated_at = now ∧
      (u.title = none → (applyTaskUpdates u now t).title = t.title) ∧
      (∀ v, u.title = some v → (applyTaskUpdates u now t).title = v) ∧
      (u.description = none →
        (applyTaskUpdates u now t).description = t.description) ∧
      (∀ v, u.description = some v →
        (applyTaskUpdates u now t).description = v) ∧
      (u.status = none → (applyTaskUpdates u now t).status = t.status) ∧
      (∀ v, u.status = some v → (applyTaskUpdates u now t).status = v) ∧
      (u.priority = none → (applyTaskUpdates u now t).priority = t.priority) ∧
      (∀ v, u.priority = some v → (applyTaskUpdates u now t).priority = v) ∧
      (u.assignee = none → (applyTaskUpdates u now t).assignee = t.assignee) ∧
      (∀ v, u.assignee = some v → (applyTaskUpdates u now t).assignee = v) ∧
      (u.notes = none → (applyTaskUpdates u now t).notes = t.notes) ∧
      (∀ v, u.notes = some v → (applyTaskUpdates u now t).notes = v)) ∧
    (∀ (s : DBState) (id : String) (u : TaskUpdates) (now : String),
      updatedFieldNames u ≠ [] → (∀ t ∈ s.tasks, t.id ≠ id) →
      updateTask s id u now = .error ("Task not found: " ++ id) ∧
      errorKindOf ("Task not found: " ++ id) = SpecErrorKind.NotFound) := by
  refine ⟨?_, ?_, ?_⟩
  · rintro s id u now hne ⟨t0, ht0, hid0⟩
    have hlen : ((updatedFieldNames u).length == 0) = false := by
      apply beq_eq_false_iff_ne.mpr
      have := List.length_pos.mpr hne
      omega
    have hmemf : t0 ∈ s.tasks.filter (fun t => t.id == id) :=
      List.mem_filter.mpr ⟨ht0, beq_iff_eq.mpr hid0⟩
    have hfil : ((s.tasks.filter (fun t => t.id == id)).length == 0) = false := by
      apply beq_eq_false_iff_ne.mpr
      have := List.length_pos.mpr (List.ne_nil_of_mem hmemf)
      omega
    simp [updateTask, hlen, hfil]
  · intro u now t
    refine ⟨rfl, rfl, rfl, rfl, rfl, rfl, ?_, ?_, ?_, ?_, ?_, ?_, ?_, ?_,
      ?_, ?_, ?_, ?_⟩ <;>
      first
        | (intro h; simp [applyTaskUpdates, h])
        | (intro v h; simp [applyTaskUpdates, h])
  · intro s id u now hne hall
    have hlen : ((updatedFieldNames u).length == 0) = false := by
      apply beq_eq_false_iff_ne.mpr
      have := List.length_pos.mpr hne
      omega
    have hnil : s.tasks.filter (fun t => t.id == id) = [] := by
      apply List.filter_eq_nil_iff.mpr
      intro t ht
      simp [hall t ht]
    refine ⟨?_, errorKindOf_taskNotFound id⟩
    simp [updateTask, hlen, hnil]

/-- C7 (witness): the amended statement at a concrete store, updating the
status and notes fields of task A, and the NotFound failure on an absent id. -/
theorem claim_C7_witness :
    updateTask exSelf "A"
        { status := some "in-progress", notes := some "n1" } "t2" =
      .ok ({ exSelf with tasks := exSelf.tasks.map (fun t =>
        if t.id == "A" then
          applyTaskUpdates
            { status := some "in-progress", notes := some "n1" } "t2" t
        else t) },
        ⟨"A", updatedFieldNames
          { status := some "in-progress", notes := some "n1" }⟩) ∧
    (updateTask exSelf "Z"
        { status := some "in-progress", notes := some "n1" } "t2" =
      .error ("Task not found: " ++ "Z") ∧
      errorKindOf ("Task not found: " ++ "Z") = SpecErrorKind.NotFound) :=
  ⟨claim_C7.1 exSelf "A" { status := some "in-progress", notes := some "n1" }
      "t2" (by decide) ⟨mkTask "A" "p1" "Task A" "todo", by decide, rfl⟩,
   claim_C7.2.2 exSelf "Z" { status := some "in-progress", notes := some "n1" }
      "t2" (by decide) (by decide)⟩

end PlanningDb
